import Mathlib

/-!
Shallow embedding of the menu state machine of
`src/components/menu/menu.tsx` (tailwindui-react).

The embedded fragment is the pure core: the `StateDefinition` record, the
`calculateActiveItemIndex` resolver, and the reducer table `reducers`
(dispatched through `stateReducer`).  Presentation-layer fields
(`buttonRef`, `itemsRef`) are opaque capability handles that the reducer
stores but never inspects; the two `SetButtonRef` / `SetItemsRef` actions
are therefore modelled as identities on the embedded fields.

A menu item in the source is `{ id: string; dataRef }` where `dataRef` is a
mutable cell holding `{ textValue?: string; disabled: boolean }`.  The
reducer and resolver only ever read the current contents of that cell, so
an item is embedded as a record of its id together with the current cell
contents.  In JavaScript, `items.indexOf(currentActiveItem)` compares
object references; every `RegisterItem` allocates a fresh item object, so
list elements are pairwise distinct references.  The embedding uses value
equality instead, which coincides with reference equality whenever the
registered ids are pairwise distinct (the documented invariant of the
item list); theorems that depend on `indexOf` carry that `Nodup`
hypothesis.

JavaScript `findIndex` / `indexOf` return the number `-1` on failure, and
`state.activeItemIndex : number | null` can in principle hold any number,
so active indices are embedded as `Option Int` and the `-1` convention is
kept literally.
-/

namespace TailwindMenu

/-- `enum MenuStates { Open, Closed }`. -/
inductive MenuStates where
  | Open
  | Closed
deriving DecidableEq

/-- One registered menu item: its id together with the current contents of
its `dataRef` cell (`textValue?: string; disabled: boolean`). -/
structure MenuItem where
  id : String
  disabled : Bool
  textValue : Option String
deriving DecidableEq

/-- The embedded fields of `StateDefinition` (the `buttonRef` / `itemsRef`
capability handles are omitted: the reducer never reads them). -/
structure StateDefinition where
  menuState : MenuStates
  items : List MenuItem
  searchQuery : String
  previousActiveIndex : Option Int
  activeItemIndex : Option Int
deriving DecidableEq

/-- `enum Focus { FirstItem, PreviousItem, NextItem, LastItem, SpecificItem, Nothing }`. -/
inductive Focus where
  | FirstItem
  | PreviousItem
  | NextItem
  | LastItem
  | SpecificItem
  | Nothing
deriving DecidableEq

/-- The action union.  `RegisterItem` carries the current contents of the
registered `dataRef` alongside the id; the two ref-setting actions carry
nothing because the handles are not embedded. -/
inductive Action where
  | ToggleMenu
  | OpenMenu
  | CloseMenu
  | GoToItem (focus : Focus) (id : Option String)
  | Search (value : String)
  | ClearSearch
  | SetButtonRef
  | SetItemsRef
  | RegisterItem (id : String) (disabled : Bool) (textValue : Option String)
  | UnregisterItem (id : String)

/-- JavaScript `Array.prototype.findIndex` with the element index passed to
the callback: returns the index of the first hit as an `Int`, and `-1` when
there is none.  `n` is the index of the head of the remaining list. -/
def jsFindIndexGo (p : α → Nat → Bool) : List α → Nat → Int
  | [], _ => -1
  | a :: as, n => if p a n then (n : Int) else jsFindIndexGo p as (n + 1)

/-- `l.findIndex((item, idx) => p item idx)`. -/
def jsFindIndexI (l : List α) (p : α → Nat → Bool) : Int :=
  jsFindIndexGo p l 0

/-- `l.findIndex(item => p item)`. -/
def jsFindIndex (l : List α) (p : α → Bool) : Int :=
  jsFindIndexI l (fun a _ => p a)

/-- `l.indexOf(x)` (strict-equality search, `-1` when absent). -/
def jsIndexOf [DecidableEq α] (l : List α) (x : α) : Int :=
  jsFindIndex l (fun a => a = x)

/-- `l[i]` for a JavaScript array: `undefined` (here `none`) out of range. -/
def jsGet (l : List α) (i : Int) : Option α :=
  if 0 ≤ i then l[i.toNat]? else none

/-- JavaScript `s.startsWith(q)` on the underlying character sequences. -/
def jsStartsWithGo : List Char → List Char → Bool
  | [], _ => true
  | _ :: _, [] => false
  | q :: qs, c :: cs => q = c && jsStartsWithGo qs cs

/-- `s.startsWith(q)`. -/
def jsStartsWith (s q : String) : Bool :=
  jsStartsWithGo q.data s.data

/-- `calculateActiveItemIndex(state, focus, id?)` (menu.tsx lines 76–123),
including the `ensureValidValue` wrapper that maps a raw `-1` result back
to the current `state.activeItemIndex`. -/
def calculateActiveItemIndex (state : StateDefinition) (focus : Focus)
    (id : Option String) : Option Int :=
  if state.items.length ≤ 0 then none
  else
    let items := state.items
    let activeItemIndex : Int := state.activeItemIndex.getD (-1)
    let ensureValidValue : Option Int → Option Int := fun value =>
      if value = some (-1) then state.activeItemIndex else value
    ensureValidValue
      (match focus with
       | Focus.FirstItem =>
           some (jsFindIndex items (fun item => !item.disabled))
       | Focus.PreviousItem =>
           let idx := jsFindIndexI items.reverse (fun item ridx =>
             if (items.length : Int) - ridx - 1 ≥ activeItemIndex then false
             else !item.disabled)
           if idx = -1 then some idx
           else some ((items.length : Int) - 1 - idx)
       | Focus.NextItem =>
           some (jsFindIndexI items (fun item idx =>
             if (idx : Int) ≤ activeItemIndex then false
             else !item.disabled))
       | Focus.LastItem =>
           let idx := jsFindIndex items.reverse (fun item => !item.disabled)
           if idx = -1 then some idx
           else some ((items.length : Int) - 1 - idx)
       | Focus.SpecificItem =>
           some (jsFindIndex items (fun item => some item.id = id))
       | Focus.Nothing => none)

/-- The search predicate of the `Search` reducer:
`item.dataRef.current.textValue?.startsWith(searchQuery) && !item.dataRef.current.disabled`
(optional chaining on a missing `textValue` makes the conjunction falsy). -/
def searchMatches (searchQuery : String) (item : MenuItem) : Bool :=
  (match item.textValue with
   | some t => jsStartsWith t searchQuery
   | none => false) && !item.disabled

/-- The reducer table of menu.tsx lines 137–220, dispatched on the action
tag exactly as `stateReducer` does via `match`. -/
def stateReducer (state : StateDefinition) : Action → StateDefinition
  | Action.ToggleMenu =>
      { state with
        menuState :=
          match state.menuState with
          | MenuStates.Open => MenuStates.Closed
          | MenuStates.Closed => MenuStates.Open }
  | Action.CloseMenu => { state with menuState := MenuStates.Closed }
  | Action.OpenMenu => { state with menuState := MenuStates.Open }
  | Action.GoToItem focus id =>
      let activeItemIndex := calculateActiveItemIndex state focus id
      if state.searchQuery = "" ∧
          state.previousActiveIndex = state.activeItemIndex ∧
          state.activeItemIndex = activeItemIndex then
        state
      else
        { state with
          searchQuery := ""
          previousActiveIndex := state.activeItemIndex
          activeItemIndex := activeItemIndex }
  | Action.Search value =>
      let searchQuery := state.searchQuery ++ value
      let m : Int := jsFindIndex state.items (searchMatches searchQuery)
      if m = -1 ∨ some m = state.activeItemIndex then
        { state with searchQuery := searchQuery }
      else
        { state with
          searchQuery := searchQuery
          previousActiveIndex := state.activeItemIndex
          activeItemIndex := some m }
  | Action.ClearSearch => { state with searchQuery := "" }
  | Action.SetButtonRef => state
  | Action.SetItemsRef => state
  | Action.RegisterItem id disabled textValue =>
      { state with items := state.items ++ [⟨id, disabled, textValue⟩] }
  | Action.UnregisterItem id =>
      let idx : Int := jsFindIndex state.items (fun a => a.id = id)
      let nextItems : List MenuItem :=
        if idx = -1 then state.items else state.items.eraseIdx idx.toNat
      { state with
        items := nextItems
        previousActiveIndex := state.activeItemIndex
        activeItemIndex :=
          -- `idx === state.activeItemIndex` is false whenever the latter is
          -- null; `currentActiveItem === null` holds exactly when
          -- `state.activeItemIndex` is null (out-of-range lookups give
          -- `undefined`, which is not `=== null`).
          match state.activeItemIndex with
          | none => none
          | some i =>
              if idx = i then none
              else
                match jsGet state.items i with
                | none => some (-1)  -- `nextItems.indexOf(undefined)`
                | some currentActiveItem =>
                    some (jsIndexOf nextItems currentActiveItem) }

/-- `defaultState` (menu.tsx lines 236–244), restricted to the embedded
fields. -/
def defaultState : StateDefinition :=
  { menuState := MenuStates.Closed
    items := []
    searchQuery := ""
    previousActiveIndex := none
    activeItemIndex := none }

/-- States reachable from `defaultState` by dispatching any sequence of
actions. -/
inductive Reachable : StateDefinition → Prop where
  | refl : Reachable defaultState
  | step {s : StateDefinition} (a : Action) : Reachable s → Reachable (stateReducer s a)

/-- The documented invariant on the active index: when it is not `none` it
is a valid position in the current item list. -/
def ActiveInRange (s : StateDefinition) : Prop :=
  ∀ i : Int, s.activeItemIndex = some i → 0 ≤ i ∧ i < (s.items.length : Int)

instance (s : StateDefinition) : Decidable (ActiveInRange s) := by
  unfold ActiveInRange
  cases h : s.activeItemIndex with
  | none => exact isTrue (by intro i hi; cases hi)
  | some j =>
      exact decidable_of_iff (0 ≤ j ∧ j < (s.items.length : Int))
        (by constructor
            · rintro hj i hi; cases hi; exact hj
            · intro hall; exact hall j rfl)

/-- Position `n` holds the first non-disabled item of `l`. -/
def IsFirstEnabled (l : List MenuItem) (n : Nat) : Prop :=
  (∃ a : MenuItem, l[n]? = some a ∧ a.disabled = false) ∧
    ∀ (m : Nat) (b : MenuItem), m < n → l[m]? = some b → b.disabled = true

/-- Position `n` holds the last non-disabled item of `l`. -/
def IsLastEnabled (l : List MenuItem) (n : Nat) : Prop :=
  (∃ a : MenuItem, l[n]? = some a ∧ a.disabled = false) ∧
    ∀ (m : Nat) (b : MenuItem), n < m → l[m]? = some b → b.disabled = true

/-- Position `n` holds the first non-disabled item whose label starts with
the typeahead query `q`. -/
def IsFirstSearchHit (l : List MenuItem) (q : String) (n : Nat) : Prop :=
  (∃ a : MenuItem, l[n]? = some a ∧ searchMatches q a = true) ∧
    ∀ (m : Nat) (b : MenuItem), m < n → l[m]? = some b → searchMatches q b = false

/-! ### Lemmas about the JavaScript array primitives -/

theorem jsFindIndexGo_eq_neg_one {α : Type _} {p : α → Nat → Bool} (l : List α) :
    ∀ n : Nat, (∀ j a, l[j]? = some a → p a (n + j) = false) →
      jsFindIndexGo p l n = -1 := by
  induction l with
  | nil => intro n _; rfl
  | cons x xs ih =>
      intro n h
      have h0 : p x n = false := by simpa using h 0 x (by simp)
      have hrec : jsFindIndexGo p xs (n + 1) = -1 := by
        refine ih (n + 1) (fun j b hj => ?_)
        have := h (j + 1) b (by simpa using hj)
        have e : n + (j + 1) = n + 1 + j := by omega
        rwa [e] at this
      simp [jsFindIndexGo, h0, hrec]

theorem jsFindIndexGo_eq_first {α : Type _} {p : α → Nat → Bool} (l : List α) :
    ∀ (n j : Nat) (a : α), l[j]? = some a → p a (n + j) = true →
      (∀ m b, m < j → l[m]? = some b → p b (n + m) = false) →
      jsFindIndexGo p l n = ((n + j : Nat) : Int) := by
  induction l with
  | nil => intro n j a hj _ _; simp at hj
  | cons x xs ih =>
      intro n j a hj hp hmin
      cases j with
      | zero =>
          have hx : x = a := by simpa using hj
          subst hx
          have hpx : p x n = true := by simpa using hp
          simp [jsFindIndexGo, hpx]
      | succ j' =>
          have h0 : p x n = false := by
            simpa using hmin 0 x (Nat.succ_pos j') (by simp)
          have hrec : jsFindIndexGo p xs (n + 1) = ((n + 1 + j' : Nat) : Int) := by
            refine ih (n + 1) j' a (by simpa using hj) ?_ ?_
            · have e : n + (j' + 1) = n + 1 + j' := by omega
              rwa [e] at hp
            · intro m b hm hmb
              have := hmin (m + 1) b (by omega) (by simpa using hmb)
              have e : n + (m + 1) = n + 1 + m := by omega
              rwa [e] at this
          have e : n + 1 + j' = n + (j' + 1) := by omega
          rw [e] at hrec
          simp [jsFindIndexGo, h0, hrec]

theorem jsFindIndexGo_range {α : Type _} {p : α → Nat → Bool} (l : List α) :
    ∀ n : Nat, jsFindIndexGo p l n = -1 ∨
      ∃ j : Nat, j < l.length ∧ jsFindIndexGo p l n = ((n + j : Nat) : Int) := by
  induction l with
  | nil => intro n; left; rfl
  | cons x xs ih =>
      intro n
      by_cases h : p x n = true
      · right
        exact ⟨0, by simp, by simp [jsFindIndexGo, h]⟩
      · have h' : p x n = false := by simpa using h
        rcases ih (n + 1) with h1 | ⟨j, hj, he⟩
        · left; simp [jsFindIndexGo, h', h1]
        · right
          refine ⟨j + 1, by simpa using Nat.succ_lt_succ hj, ?_⟩
          have e : n + 1 + j = n + (j + 1) := by omega
          rw [e] at he
          simp [jsFindIndexGo, h', he]

theorem jsFindIndexGo_exists_first {α : Type _} {p : α → Nat → Bool} (l : List α) :
    ∀ n : Nat, (∃ j c, l[j]? = some c ∧ p c (n + j) = true) →
      ∃ j c, l[j]? = some c ∧ p c (n + j) = true ∧
        (∀ m b, m < j → l[m]? = some b → p b (n + m) = false) ∧
        jsFindIndexGo p l n = ((n + j : Nat) : Int) := by
  induction l with
  | nil =>
      rintro n ⟨j, c, hj, -⟩
      simp at hj
  | cons x xs ih =>
      rintro n ⟨j, c, hj, hp⟩
      by_cases h : p x n = true
      · exact ⟨0, x, by simp, by simpa using h,
          fun m b hm => absurd hm (Nat.not_lt_zero m), by simp [jsFindIndexGo, h]⟩
      · have h' : p x n = false := by simpa using h
        cases j with
        | zero =>
            have hx : x = c := by simpa using hj
            subst hx
            exact absurd (by simpa using hp) h
        | succ j' =>
            have hhit : ∃ j c, xs[j]? = some c ∧ p c (n + 1 + j) = true := by
              refine ⟨j', c, by simpa using hj, ?_⟩
              have e : n + (j' + 1) = n + 1 + j' := by omega
              rwa [e] at hp
            obtain ⟨j0, c0, hj0, hp0, hmin0, heq0⟩ := ih (n + 1) hhit
            refine ⟨j0 + 1, c0, by simpa using hj0, ?_, ?_, ?_⟩
            · have e : n + 1 + j0 = n + (j0 + 1) := by omega
              rwa [e] at hp0
            · intro m b hm hmb
              cases m with
              | zero => simpa using ((by simpa using hmb : x = b) ▸ h')
              | succ m' =>
                  have := hmin0 m' b (by omega) (by simpa using hmb)
                  have e : n + 1 + m' = n + (m' + 1) := by omega
                  rwa [e] at this
            · have e : n + 1 + j0 = n + (j0 + 1) := by omega
              rw [e] at heq0
              simp [jsFindIndexGo, h', heq0]

theorem jsFindIndexI_eq_neg_one {α : Type _} {p : α → Nat → Bool} (l : List α)
    (h : ∀ j a, l[j]? = some a → p a j = false) : jsFindIndexI l p = -1 :=
  jsFindIndexGo_eq_neg_one l 0 (by simpa using h)

theorem jsFindIndexI_eq_first {α : Type _} {p : α → Nat → Bool} (l : List α)
    (j : Nat) (a : α) (hj : l[j]? = some a) (hp : p a j = true)
    (hmin : ∀ m b, m < j → l[m]? = some b → p b m = false) :
    jsFindIndexI l p = (j : Int) := by
  simpa using jsFindIndexGo_eq_first l 0 j a hj (by simpa using hp) (by simpa using hmin)

theorem jsFindIndexI_range {α : Type _} {p : α → Nat → Bool} (l : List α) :
    jsFindIndexI l p = -1 ∨
      ∃ j : Nat, j < l.length ∧ jsFindIndexI l p = (j : Int) := by
  simpa using jsFindIndexGo_range (p := p) l 0

theorem jsFindIndex_eq_neg_one {α : Type _} {p : α → Bool} (l : List α)
    (h : ∀ a ∈ l, p a = false) : jsFindIndex l p = -1 :=
  jsFindIndexI_eq_neg_one l (fun _ a hj => h a (List.getElem?_mem hj))

theorem jsFindIndex_eq_first {α : Type _} {p : α → Bool} (l : List α)
    (j : Nat) (a : α) (hj : l[j]? = some a) (hp : p a = true)
    (hmin : ∀ m b, m < j → l[m]? = some b → p b = false) :
    jsFindIndex l p = (j : Int) :=
  jsFindIndexI_eq_first l j a hj hp hmin

theorem jsFindIndex_range {α : Type _} {p : α → Bool} (l : List α) :
    jsFindIndex l p = -1 ∨
      ∃ j : Nat, j < l.length ∧ jsFindIndex l p = (j : Int) :=
  jsFindIndexI_range l

theorem jsFindIndex_exists_first {α : Type _} {p : α → Bool} (l : List α)
    (a : α) (ha : a ∈ l) (hp : p a = true) :
    ∃ (j : Nat) (c : α), l[j]? = some c ∧ p c = true ∧
      (∀ (m : Nat) (b : α), m < j → l[m]? = some b → p b = false) ∧
      jsFindIndex l p = (j : Int) := by
  obtain ⟨i, hi⟩ := List.getElem?_of_mem ha
  obtain ⟨j, c, h1, h2, h3, h4⟩ :=
    jsFindIndexGo_exists_first (p := fun b _ => p b) l 0 ⟨i, a, hi, by simpa using hp⟩
  exact ⟨j, c, h1, by simpa using h2, by simpa using h3, by simpa using h4⟩

theorem jsIndexOf_exists {α : Type _} [DecidableEq α] (l : List α) (a : α) (ha : a ∈ l) :
    ∃ j : Nat, l[j]? = some a ∧
      (∀ (m : Nat) (b : α), m < j → l[m]? = some b → b ≠ a) ∧
      jsIndexOf l a = (j : Int) := by
  obtain ⟨j, c, h1, h2, h3, h4⟩ :=
    jsFindIndex_exists_first l a ha (p := fun b => b = a) (by simp)
  have hc : c = a := by simpa using h2
  subst hc
  exact ⟨j, h1, fun m b hm hmb => by simpa using h3 m b hm hmb, h4⟩

/-- The element at a position other than the erased one survives `eraseIdx`. -/
theorem mem_eraseIdx_of_getElem? {α : Type _} {a : α} :
    ∀ (l : List α) (i j : Nat), i ≠ j → l[i]? = some a → a ∈ l.eraseIdx j := by
  intro l
  induction l with
  | nil => intro i j _ hi; simp at hi
  | cons x xs ih =>
      intro i j hij hi
      cases j with
      | zero =>
          cases i with
          | zero => exact absurd rfl hij
          | succ i' =>
              simp only [List.eraseIdx]
              exact List.getElem?_mem (by simpa using hi)
      | succ j' =>
          cases i with
          | zero =>
              have hx : x = a := by simpa using hi
              subst hx
              simp [List.eraseIdx]
          | succ i' =>
              have := ih i' j' (by omega) (by simpa using hi)
              simp [List.eraseIdx, this]

/-- If the state is empty its active index must be `none`. -/
theorem activeItemIndex_eq_none_of_empty (s : StateDefinition)
    (hval : ActiveInRange s) (hemp : s.items.length ≤ 0) :
    s.activeItemIndex = none := by
  cases hax : s.activeItemIndex with
  | none => rfl
  | some i =>
      have := hval i hax
      omega

/-! ### Shape of the resolver, one lemma per focus intent -/

theorem calc_first_eq (s : StateDefinition) (oid : Option String) :
    calculateActiveItemIndex s Focus.FirstItem oid =
      if s.items.length ≤ 0 then none
      else if jsFindIndex s.items (fun item => !item.disabled) = -1 then s.activeItemIndex
      else some (jsFindIndex s.items (fun item => !item.disabled)) := by
  by_cases hemp : s.items.length ≤ 0
  · simp only [calculateActiveItemIndex, if_pos hemp]
  · simp only [calculateActiveItemIndex, if_neg hemp]
    by_cases hfi : jsFindIndex s.items (fun item => !item.disabled) = -1
    · simp only [hfi, if_pos rfl]
    · rw [if_neg hfi, if_neg (by simpa using hfi)]

theorem calc_next_eq (s : StateDefinition) (oid : Option String) :
    calculateActiveItemIndex s Focus.NextItem oid =
      if s.items.length ≤ 0 then none
      else if jsFindIndexI s.items (fun item idx =>
          if (idx : Int) ≤ s.activeItemIndex.getD (-1) then false
          else !item.disabled) = -1 then s.activeItemIndex
      else some (jsFindIndexI s.items (fun item idx =>
          if (idx : Int) ≤ s.activeItemIndex.getD (-1) then false
          else !item.disabled)) := by
  by_cases hemp : s.items.length ≤ 0
  · simp only [calculateActiveItemIndex, if_pos hemp]
  · simp only [calculateActiveItemIndex, if_neg hemp]
    by_cases hfi : jsFindIndexI s.items (fun item idx =>
        if (idx : Int) ≤ s.activeItemIndex.getD (-1) then false
        else !item.disabled) = -1
    · rw [hfi]
      simp
    · rw [if_neg hfi, if_neg (by simpa using hfi)]


theorem calc_previous_eq (s : StateDefinition) (oid : Option String) :
    calculateActiveItemIndex s Focus.PreviousItem oid =
      if s.items.length ≤ 0 then none
      else if jsFindIndexI s.items.reverse (fun item ridx =>
          if (s.items.length : Int) - ridx - 1 ≥ s.activeItemIndex.getD (-1) then false
          else !item.disabled) = -1 then s.activeItemIndex
      else some ((s.items.length : Int) - 1 -
        jsFindIndexI s.items.reverse (fun item ridx =>
          if (s.items.length : Int) - ridx - 1 ≥ s.activeItemIndex.getD (-1) then false
          else !item.disabled)) := by
  by_cases hemp : s.items.length ≤ 0
  · simp only [calculateActiveItemIndex, if_pos hemp]
  · simp only [calculateActiveItemIndex, if_neg hemp]
    rcases jsFindIndexI_range (p := fun item ridx =>
        if (s.items.length : Int) - ridx - 1 ≥ s.activeItemIndex.getD (-1) then false
        else !item.disabled) s.items.reverse with h1 | ⟨j, hj, he⟩
    · rw [h1]
      simp
    · rw [he]
      have hjlen : j < s.items.length := by simpa using hj
      have hjne : ¬ ((j : Nat) : Int) = -1 := by omega
      rw [if_neg hjne, if_neg hjne]
      have hne2 : ¬ (some ((s.items.length : Int) - 1 - (j : Int)) = some (-1 : Int)) := by
        simp only [Option.some.injEq]
        omega
      rw [if_neg hne2]

theorem calc_last_eq (s : StateDefinition) (oid : Option String) :
    calculateActiveItemIndex s Focus.LastItem oid =
      if s.items.length ≤ 0 then none
      else if jsFindIndex s.items.reverse (fun item => !item.disabled) = -1 then
        s.activeItemIndex
      else some ((s.items.length : Int) - 1 -
        jsFindIndex s.items.reverse (fun item => !item.disabled)) := by
  by_cases hemp : s.items.length ≤ 0
  · simp only [calculateActiveItemIndex, if_pos hemp]
  · simp only [calculateActiveItemIndex, if_neg hemp]
    rcases jsFindIndex_range (p := fun item => !item.disabled) s.items.reverse
      with h1 | ⟨j, hj, he⟩
    · rw [h1]
      simp
    · rw [he]
      have hjlen : j < s.items.length := by simpa using hj
      have hjne : ¬ ((j : Nat) : Int) = -1 := by omega
      rw [if_neg hjne, if_neg hjne]
      have hne2 : ¬ (some ((s.items.length : Int) - 1 - (j : Int)) = some (-1 : Int)) := by
        simp only [Option.some.injEq]
        omega
      rw [if_neg hne2]

theorem calc_specific_eq (s : StateDefinition) (oid : Option String) :
    calculateActiveItemIndex s Focus.SpecificItem oid =
      if s.items.length ≤ 0 then none
      else if jsFindIndex s.items (fun item => some item.id = oid) = -1 then
        s.activeItemIndex
      else some (jsFindIndex s.items (fun item => some item.id = oid)) := by
  by_cases hemp : s.items.length ≤ 0
  · simp only [calculateActiveItemIndex, if_pos hemp]
  · simp only [calculateActiveItemIndex, if_neg hemp]
    by_cases hfi : jsFindIndex s.items (fun item => some item.id = oid) = -1
    · simp only [hfi, if_pos rfl]
    · rw [if_neg hfi, if_neg (by simpa using hfi)]

theorem calc_nothing_eq (s : StateDefinition) (oid : Option String) :
    calculateActiveItemIndex s Focus.Nothing oid = none := by
  by_cases hemp : s.items.length ≤ 0
  · simp only [calculateActiveItemIndex, if_pos hemp]
  · simp only [calculateActiveItemIndex, if_neg hemp]
    simp

/-! ### Claim theorems -/

/-- C1: dispatching `GoToItem` with `NextItem` focus when no non-disabled
item has an index strictly greater than the current active index (treated
as `-1` when `none`) leaves `activeItemIndex` unchanged, and symmetrically
for `PreviousItem` focus when no non-disabled item has a strictly smaller
index: there is no wrap-around.  The state is assumed to satisfy the
active-index validity invariant `ActiveInRange` (proved for all reachable
states by the C7 theorem). -/
theorem C1_next_previous_no_wraparound (s : StateDefinition) (oid : Option String)
    (hval : ActiveInRange s) :
    ((∀ (j : Nat) (a : MenuItem), s.items[j]? = some a →
        s.activeItemIndex.getD (-1) < (j : Int) → a.disabled = true) →
      calculateActiveItemIndex s Focus.NextItem oid = s.activeItemIndex) ∧
    ((∀ (j : Nat) (a : MenuItem), s.items[j]? = some a →
        (j : Int) < s.activeItemIndex.getD (-1) → a.disabled = true) →
      calculateActiveItemIndex s Focus.PreviousItem oid = s.activeItemIndex) := by
  constructor
  · intro h
    rw [calc_next_eq]
    by_cases hemp : s.items.length ≤ 0
    · rw [if_pos hemp, activeItemIndex_eq_none_of_empty s hval hemp]
    · rw [if_neg hemp]
      have hfi : jsFindIndexI s.items (fun item idx =>
          if (idx : Int) ≤ s.activeItemIndex.getD (-1) then false
          else !item.disabled) = -1 := by
        apply jsFindIndexI_eq_neg_one
        intro j a hj
        by_cases hle : (j : Int) ≤ s.activeItemIndex.getD (-1)
        · simp [hle]
        · have hd : a.disabled = true := h j a hj (by omega)
          simp [hle, hd]
      rw [if_pos hfi]
  · intro h
    rw [calc_previous_eq]
    by_cases hemp : s.items.length ≤ 0
    · rw [if_pos hemp, activeItemIndex_eq_none_of_empty s hval hemp]
    · rw [if_neg hemp]
      have hfi : jsFindIndexI s.items.reverse (fun item ridx =>
          if (s.items.length : Int) - ridx - 1 ≥ s.activeItemIndex.getD (-1) then false
          else !item.disabled) = -1 := by
        apply jsFindIndexI_eq_neg_one
        intro j a hj
        have hjlen : j < s.items.length := by
          have := (List.getElem?_eq_some.mp hj).1
          simpa using this
        by_cases hge : (s.items.length : Int) - j - 1 ≥ s.activeItemIndex.getD (-1)
        · simp [hge]
        · rw [List.getElem?_reverse hjlen] at hj
          have hd : a.disabled = true :=
            h (s.items.length - 1 - j) a hj (by omega)
          simp [hge, hd]
      rw [if_pos hfi]

/-- C1 witness: a single enabled item, active at index 0; both `NextItem`
and `PreviousItem` leave the active index unchanged. -/
theorem C1_witness :
    calculateActiveItemIndex
      ⟨MenuStates.Closed, [⟨"w1", false, none⟩], "", none, some 0⟩
      Focus.NextItem none = some 0 ∧
    calculateActiveItemIndex
      ⟨MenuStates.Closed, [⟨"w1", false, none⟩], "", none, some 0⟩
      Focus.PreviousItem none = some 0 := by
  have h := C1_next_previous_no_wraparound
    ⟨MenuStates.Closed, [⟨"w1", false, none⟩], "", none, some 0⟩ none (by decide)
  refine ⟨h.1 ?_, h.2 ?_⟩
  · intro j a hj hlt
    cases j with
    | zero => simp at hlt
    | succ j' => simp at hj
  · intro j a hj hlt
    simp at hlt
    omega

/-- C2 counterexample: on a one-item list whose only item is disabled and
whose prior active index is `some 0`, resolving `FirstItem` returns
`some 0`, not `none` as the claim states. -/
theorem C2_counterexample :
    calculateActiveItemIndex
      ⟨MenuStates.Closed, [⟨"c2", true, none⟩], "", none, some 0⟩
      Focus.FirstItem none ≠ none ∧
    calculateActiveItemIndex
      ⟨MenuStates.Closed, [⟨"c2", true, none⟩], "", none, some 0⟩
      Focus.FirstItem none = some 0 := by decide

/-- C2 (amended): resolving `FirstItem` (resp. `LastItem`) yields the index
of the first (resp. last) non-disabled item; on an empty list it yields
`none`; on a non-empty list whose items are all disabled it returns the
prior active index unchanged (so `none` exactly when the prior active index
was `none`), because the `-1` of the failed `findIndex` is mapped back to
`state.activeItemIndex` by `ensureValidValue`. -/
theorem C2_first_last_enabled (s : StateDefinition) (oid : Option String)
    (hval : ActiveInRange s) :
    (s.items = [] →
      calculateActiveItemIndex s Focus.FirstItem oid = none ∧
      calculateActiveItemIndex s Focus.LastItem oid = none) ∧
    ((∀ a ∈ s.items, a.disabled = true) →
      calculateActiveItemIndex s Focus.FirstItem oid = s.activeItemIndex ∧
      calculateActiveItemIndex s Focus.LastItem oid = s.activeItemIndex) ∧
    (∀ n : Nat, IsFirstEnabled s.items n →
      calculateActiveItemIndex s Focus.FirstItem oid = some (n : Int)) ∧
    (∀ n : Nat, IsLastEnabled s.items n →
      calculateActiveItemIndex s Focus.LastItem oid = some (n : Int)) := by
  refine ⟨?_, ?_, ?_, ?_⟩
  · intro hnil
    rw [calc_first_eq, calc_last_eq]
    simp [hnil]
  · intro hdis
    by_cases hemp : s.items.length ≤ 0
    · rw [calc_first_eq, calc_last_eq, if_pos hemp, if_pos hemp,
        activeItemIndex_eq_none_of_empty s hval hemp]
      exact ⟨rfl, rfl⟩
    · constructor
      · have hfi : jsFindIndex s.items (fun item => !item.disabled) = -1 :=
          jsFindIndex_eq_neg_one s.items (fun a ha => by simp [hdis a ha])
        rw [calc_first_eq, if_neg hemp, if_pos hfi]
      · have hfi : jsFindIndex s.items.reverse (fun item => !item.disabled) = -1 :=
          jsFindIndex_eq_neg_one s.items.reverse
            (fun a ha => by simp [hdis a (List.mem_reverse.mp ha)])
        rw [calc_last_eq, if_neg hemp, if_pos hfi]
  · rintro n ⟨⟨a, hn, had⟩, hmin⟩
    have hnlen : n < s.items.length := (List.getElem?_eq_some.mp hn).1
    have hemp : ¬ s.items.length ≤ 0 := by omega
    have hfi : jsFindIndex s.items (fun item => !item.disabled) = (n : Int) := by
      apply jsFindIndex_eq_first s.items n a hn (by simp [had])
      intro m b hm hmb
      simp [hmin m b hm hmb]
    rw [calc_first_eq, if_neg hemp, hfi, if_neg (by omega)]
  · rintro n ⟨⟨a, hn, had⟩, hmax⟩
    have hnlen : n < s.items.length := (List.getElem?_eq_some.mp hn).1
    have hemp : ¬ s.items.length ≤ 0 := by omega
    have hrj : s.items.length - 1 - n < s.items.length := by omega
    have hfi : jsFindIndex s.items.reverse (fun item => !item.disabled)
        = ((s.items.length - 1 - n : Nat) : Int) := by
      apply jsFindIndex_eq_first s.items.reverse (s.items.length - 1 - n) a
      · rw [List.getElem?_reverse hrj]
        have heq : s.items.length - 1 - (s.items.length - 1 - n) = n := by omega
        rw [heq]
        exact hn
      · simp [had]
      · intro m b hm hmb
        have hmlen : m < s.items.length := by omega
        rw [List.getElem?_reverse hmlen] at hmb
        have hgt : n < s.items.length - 1 - m := by omega
        simp [hmax (s.items.length - 1 - m) b hgt hmb]
    rw [calc_last_eq, if_neg hemp, hfi, if_neg (by omega)]
    simp only [Option.some.injEq]
    omega

/-- C2 witness: on `[disabled, enabled]` both `FirstItem` and `LastItem`
resolve to index 1; on an all-disabled list with no prior active index the
result is `none`. -/
theorem C2_witness :
    calculateActiveItemIndex
      ⟨MenuStates.Closed, [⟨"w2a", true, none⟩, ⟨"w2b", false, none⟩], "", none, none⟩
      Focus.FirstItem none = some 1 ∧
    calculateActiveItemIndex
      ⟨MenuStates.Closed, [⟨"w2a", true, none⟩, ⟨"w2b", false, none⟩], "", none, none⟩
      Focus.LastItem none = some 1 ∧
    calculateActiveItemIndex
      ⟨MenuStates.Closed, [⟨"w2c", true, none⟩], "", none, none⟩
      Focus.FirstItem none = none := by
  have h1 := C2_first_last_enabled
    ⟨MenuStates.Closed, [⟨"w2a", true, none⟩, ⟨"w2b", false, none⟩], "", none, none⟩
    none (by decide)
  have h2 := C2_first_last_enabled
    ⟨MenuStates.Closed, [⟨"w2c", true, none⟩], "", none, none⟩ none (by decide)
  have hmin : ∀ (m : Nat) (b : MenuItem), m < 1 →
      ([⟨"w2a", true, none⟩, ⟨"w2b", false, none⟩] : List MenuItem)[m]? = some b →
      b.disabled = true := by
    intro m b hm hmb
    cases m with
    | zero =>
        have hb : (⟨"w2a", true, none⟩ : MenuItem) = b := by simpa using hmb
        rw [← hb]
    | succ m' => omega
  have hmax : ∀ (m : Nat) (b : MenuItem), 1 < m →
      ([⟨"w2a", true, none⟩, ⟨"w2b", false, none⟩] : List MenuItem)[m]? = some b →
      b.disabled = true := by
    intro m b hm hmb
    match m, hm with
    | (m'' + 2), _ => simp at hmb
  exact ⟨h1.2.2.1 1 ⟨⟨⟨"w2b", false, none⟩, rfl, rfl⟩, hmin⟩,
         h1.2.2.2 1 ⟨⟨⟨"w2b", false, none⟩, rfl, rfl⟩, hmax⟩,
         (h2.2.1 (by decide)).1⟩

/-- C3 counterexample: with one registered item `"x"` and prior active index
`some 0`, resolving `SpecificItem` with the absent id `"nope"` returns
`some 0`, not `none` as the claim states. -/
theorem C3_counterexample :
    calculateActiveItemIndex
      ⟨MenuStates.Closed, [⟨"x", false, none⟩], "", none, some 0⟩
      Focus.SpecificItem (some "nope") ≠ none ∧
    calculateActiveItemIndex
      ⟨MenuStates.Closed, [⟨"x", false, none⟩], "", none, some 0⟩
      Focus.SpecificItem (some "nope") = some 0 := by decide

/-- C3 (amended): resolving `SpecificItem` with target id `tid` yields the
index of the (first) item whose id equals `tid`; when no registered item
has that id the prior active index is returned unchanged (`none` exactly
when the prior active index was `none`), again because of the
`ensureValidValue` fallback. -/
theorem C3_specific_by_id (s : StateDefinition) (tid : String)
    (hval : ActiveInRange s) :
    (∀ (n : Nat) (a : MenuItem), s.items[n]? = some a → a.id = tid →
      (∀ (m : Nat) (b : MenuItem), m < n → s.items[m]? = some b → b.id ≠ tid) →
      calculateActiveItemIndex s Focus.SpecificItem (some tid) = some (n : Int)) ∧
    ((∀ a ∈ s.items, a.id ≠ tid) →
      calculateActiveItemIndex s Focus.SpecificItem (some tid) = s.activeItemIndex) := by
  constructor
  · intro n a hn haid hmin
    have hnlen : n < s.items.length := (List.getElem?_eq_some.mp hn).1
    have hemp : ¬ s.items.length ≤ 0 := by omega
    have hfi : jsFindIndex s.items (fun item => some item.id = some tid)
        = (n : Int) := by
      apply jsFindIndex_eq_first s.items n a hn (by simp [haid])
      intro m b hm hmb
      simp [hmin m b hm hmb]
    rw [calc_specific_eq, if_neg hemp, hfi, if_neg (by omega)]
  · intro habs
    by_cases hemp : s.items.length ≤ 0
    · rw [calc_specific_eq, if_pos hemp,
        activeItemIndex_eq_none_of_empty s hval hemp]
    · have hfi : jsFindIndex s.items (fun item => some item.id = some tid) = -1 :=
        jsFindIndex_eq_neg_one s.items (fun a ha => by simp [habs a ha])
      rw [calc_specific_eq, if_neg hemp, if_pos hfi]

/-- C3 witness: target `"w3b"` resolves to its index 1; an absent target id
on a state with prior active index `some 0` keeps `some 0`. -/
theorem C3_witness :
    calculateActiveItemIndex
      ⟨MenuStates.Closed, [⟨"w3a", false, none⟩, ⟨"w3b", false, none⟩], "", none, none⟩
      Focus.SpecificItem (some "w3b") = some 1 ∧
    calculateActiveItemIndex
      ⟨MenuStates.Closed, [⟨"w3a", false, none⟩], "", none, some 0⟩
      Focus.SpecificItem (some "w3z") = some 0 := by
  have h1 := C3_specific_by_id
    ⟨MenuStates.Closed, [⟨"w3a", false, none⟩, ⟨"w3b", false, none⟩], "", none, none⟩
    "w3b" (by decide)
  have h2 := C3_specific_by_id
    ⟨MenuStates.Closed, [⟨"w3a", false, none⟩], "", none, some 0⟩ "w3z" (by decide)
  refine ⟨h1.1 1 ⟨"w3b", false, none⟩ rfl rfl ?_, h2.2 ?_⟩
  · intro m b hm hmb
    cases m with
    | zero =>
        have hb : (⟨"w3a", false, none⟩ : MenuItem) = b := by simpa using hmb
        rw [← hb]
        decide
    | succ m' => omega
  · intro a ha
    have ha2 : a = ⟨"w3a", false, none⟩ := by simpa using ha
    rw [ha2]
    decide

/-- Both branches of the `Search` reducer leave the item list unchanged and
append the typed value to the search buffer. -/
theorem search_fields (s : StateDefinition) (v : String) :
    (stateReducer s (Action.Search v)).items = s.items ∧
    (stateReducer s (Action.Search v)).searchQuery = s.searchQuery ++ v := by
  simp only [stateReducer]
  split
  · exact ⟨rfl, rfl⟩
  · exact ⟨rfl, rfl⟩

/-- When the extended query has a first enabled match at position `n`, the
`Search` reducer leaves the active index at `some n` (either it was already
there, or it is moved there). -/
theorem search_activeItemIndex_of_hit (s : StateDefinition) (v : String) (n : Nat)
    (hfi : jsFindIndex s.items (searchMatches (s.searchQuery ++ v)) = (n : Int)) :
    (stateReducer s (Action.Search v)).activeItemIndex = some (n : Int) := by
  simp only [stateReducer, hfi]
  by_cases hact : some ((n : Nat) : Int) = s.activeItemIndex
  · rw [if_pos (Or.inr hact)]
    exact hact.symm
  · rw [if_neg (by push_neg; exact ⟨by omega, hact⟩)]

/-- C4 counterexample: with the single enabled item labelled `"bat"`,
`Search "b"` then `Search "o"` ends with `activeItemIndex = some 0` (the
`"b"` step moved it, the failing `"bo"` step keeps it) while the single
`Search "bo"` leaves it `none` — the claimed equality fails when no item
matches the combined prefix.  Moreover matching is case-sensitive: typing
`"B"` then `"o"` against the stored lowercase label `"bob"` selects
nothing, while the claim's case-insensitive reading would select item 0. -/
theorem C4_counterexample :
    ((stateReducer (stateReducer
        ⟨MenuStates.Closed, [⟨"c4", false, some "bat"⟩], "", none, none⟩
        (Action.Search "b")) (Action.Search "o")).activeItemIndex ≠
      (stateReducer ⟨MenuStates.Closed, [⟨"c4", false, some "bat"⟩], "", none, none⟩
        (Action.Search "bo")).activeItemIndex) ∧
    (stateReducer (stateReducer
        ⟨MenuStates.Closed, [⟨"c4b", false, some "bob"⟩], "", none, none⟩
        (Action.Search "B")) (Action.Search "o")).activeItemIndex = none := by decide

/-- C4 (amended): starting from an empty search buffer, if some non-disabled
item's label starts with the combined value `v1 ++ v2` (literal,
case-sensitive comparison against the stored label, which the registration
layer lowercases), then `Search v1` followed by `Search v2` yields the same
`activeItemIndex` as the single `Search (v1 ++ v2)`, namely the index of the
first such item.  Without such a match the two dispatch sequences can
disagree, and a query with different letter case than the stored label does
not match. -/
theorem C4_search_cumulative (s : StateDefinition) (v1 v2 : String) (n : Nat)
    (hq : s.searchQuery = "") (hhit : IsFirstSearchHit s.items (v1 ++ v2) n) :
    (stateReducer (stateReducer s (Action.Search v1)) (Action.Search v2)).activeItemIndex
      = (stateReducer s (Action.Search (v1 ++ v2))).activeItemIndex ∧
    (stateReducer s (Action.Search (v1 ++ v2))).activeItemIndex = some (n : Int) := by
  obtain ⟨⟨a, hn, hpa⟩, hmin⟩ := hhit
  have hfi : jsFindIndex s.items (searchMatches (v1 ++ v2)) = (n : Int) :=
    jsFindIndex_eq_first s.items n a hn hpa hmin
  have h1 : (stateReducer s (Action.Search (v1 ++ v2))).activeItemIndex
      = some ((n : Nat) : Int) := by
    apply search_activeItemIndex_of_hit
    rw [hq]
    exact hfi
  have hitems : (stateReducer s (Action.Search v1)).items = s.items :=
    (search_fields s v1).1
  have hsq : (stateReducer s (Action.Search v1)).searchQuery = s.searchQuery ++ v1 :=
    (search_fields s v1).2
  have h2 : (stateReducer (stateReducer s (Action.Search v1))
      (Action.Search v2)).activeItemIndex = some ((n : Nat) : Int) := by
    apply search_activeItemIndex_of_hit
    rw [hsq, hq, hitems]
    exact hfi
  exact ⟨h2.trans h1.symm, h1⟩

/-- C4 witness: one enabled item labelled `"boat"`; typing `"b"` then `"o"`
equals typing `"bo"`, both selecting index 0. -/
theorem C4_witness :
    (stateReducer (stateReducer
        ⟨MenuStates.Closed, [⟨"w4", false, some "boat"⟩], "", none, none⟩
        (Action.Search "b")) (Action.Search "o")).activeItemIndex
      = (stateReducer ⟨MenuStates.Closed, [⟨"w4", false, some "boat"⟩], "", none, none⟩
        (Action.Search ("b" ++ "o"))).activeItemIndex ∧
    (stateReducer ⟨MenuStates.Closed, [⟨"w4", false, some "boat"⟩], "", none, none⟩
        (Action.Search ("b" ++ "o"))).activeItemIndex = some 0 :=
  C4_search_cumulative
    ⟨MenuStates.Closed, [⟨"w4", false, some "boat"⟩], "", none, none⟩ "b" "o" 0 rfl
    ⟨⟨⟨"w4", false, some "boat"⟩, rfl, by decide⟩,
     fun m _ hm _ => absurd hm (Nat.not_lt_zero m)⟩

/-- C5: the `GoToItem` reducer returns the input state itself exactly when
the search buffer is empty, `previousActiveIndex` equals `activeItemIndex`,
and the resolver result equals the current `activeItemIndex`; and in every
case the resulting state has an empty `searchQuery`, `previousActiveIndex`
equal to the old `activeItemIndex`, `activeItemIndex` equal to the resolver
result, and unchanged items and menu status. -/
theorem C5_goToItem_no_op_detection (s : StateDefinition) (f : Focus)
    (oid : Option String) :
    (stateReducer s (Action.GoToItem f oid) = s ↔
      (s.searchQuery = "" ∧ s.previousActiveIndex = s.activeItemIndex ∧
        s.activeItemIndex = calculateActiveItemIndex s f oid)) ∧
    (stateReducer s (Action.GoToItem f oid)).searchQuery = "" ∧
    (stateReducer s (Action.GoToItem f oid)).previousActiveIndex = s.activeItemIndex ∧
    (stateReducer s (Action.GoToItem f oid)).activeItemIndex
      = calculateActiveItemIndex s f oid ∧
    (stateReducer s (Action.GoToItem f oid)).items = s.items ∧
    (stateReducer s (Action.GoToItem f oid)).menuState = s.menuState := by
  simp only [stateReducer]
  by_cases hcond : s.searchQuery = "" ∧ s.previousActiveIndex = s.activeItemIndex ∧
      s.activeItemIndex = calculateActiveItemIndex s f oid
  · rw [if_pos hcond]
    obtain ⟨h1, h2, h3⟩ := hcond
    exact ⟨⟨fun _ => ⟨h1, h2, h3⟩, fun _ => rfl⟩, h1, h2, h3, rfl, rfl⟩
  · rw [if_neg hcond]
    refine ⟨⟨fun heq => ?_, fun hc => absurd hc hcond⟩, rfl, rfl, rfl, rfl, rfl⟩
    exfalso
    apply hcond
    refine ⟨?_, ?_, ?_⟩
    · have h := congrArg StateDefinition.searchQuery heq
      simpa using h.symm
    · have h := congrArg StateDefinition.previousActiveIndex heq
      simpa using h.symm
    · have h := congrArg StateDefinition.activeItemIndex heq
      simpa using h.symm

/-- C8: `CloseMenu` sets the menu status to `Closed` and leaves the item
list, active index, previous active index and search buffer untouched. -/
theorem C8_close_menu_frame (s : StateDefinition) :
    (stateReducer s Action.CloseMenu).menuState = MenuStates.Closed ∧
    (stateReducer s Action.CloseMenu).items = s.items ∧
    (stateReducer s Action.CloseMenu).activeItemIndex = s.activeItemIndex ∧
    (stateReducer s Action.CloseMenu).previousActiveIndex = s.previousActiveIndex ∧
    (stateReducer s Action.CloseMenu).searchQuery = s.searchQuery :=
  ⟨rfl, rfl, rfl, rfl, rfl⟩

/-- C10: the `UnregisterItem` reducer sets `previousActiveIndex` to the old
`activeItemIndex` unconditionally — there is no early return — and in
particular an unregistration with an id that is absent from the item list
still produces a state value that differs from the input (its
`previousActiveIndex` has been overwritten). -/
theorem C10_unregister_always_sets_previous :
    (∀ (s : StateDefinition) (tid : String),
      (stateReducer s (Action.UnregisterItem tid)).previousActiveIndex
        = s.activeItemIndex) ∧
    (stateReducer ⟨MenuStates.Open, [⟨"c10", false, none⟩], "", none, some 0⟩
        (Action.UnregisterItem "zz")
      ≠ ⟨MenuStates.Open, [⟨"c10", false, none⟩], "", none, some 0⟩ ∧
     (stateReducer ⟨MenuStates.Open, [⟨"c10", false, none⟩], "", none, some 0⟩
        (Action.UnregisterItem "zz")).previousActiveIndex ≠ none) := by
  refine ⟨fun s tid => rfl, ?_⟩
  decide

/-- On a non-negative index `jsGet` is plain list lookup. -/
theorem jsGet_nonneg {α : Type _} (l : List α) (i : Int) (h0 : 0 ≤ i) :
    jsGet l i = l[i.toNat]? :=
  if_pos h0

/-- With pairwise-distinct ids, `findIndex` on an id predicate finds exactly
the position of the item carrying that id. -/
theorem jsFindIndex_id_of_nodup (l : List MenuItem)
    (hnd : (l.map MenuItem.id).Nodup) (j : Nat) (a : MenuItem) (tid : String)
    (hj : l[j]? = some a) (haid : a.id = tid) :
    jsFindIndex l (fun b => b.id = tid) = (j : Int) := by
  apply jsFindIndex_eq_first l j a hj (by simp [haid])
  intro m b hm hmb
  simp only [decide_eq_false_iff_not]
  intro hbid
  obtain ⟨hjlen, hjeq⟩ := List.getElem?_eq_some.mp hj
  obtain ⟨hmlen, hmeq⟩ := List.getElem?_eq_some.mp hmb
  have hmm : m < (l.map MenuItem.id).length := by simpa using hmlen
  have hjj : j < (l.map MenuItem.id).length := by simpa using hjlen
  have heq : (l.map MenuItem.id)[m] = (l.map MenuItem.id)[j] := by
    rw [List.getElem_map, List.getElem_map, hmeq, hjeq, hbid, haid]
  have := (List.Nodup.getElem_inj_iff hnd).mp heq
  omega

/-- With pairwise-distinct ids, `indexOf` finds exactly the position of the
given item (value equality then coincides with JavaScript's reference
equality, since distinct positions hold items with distinct ids). -/
theorem jsIndexOf_of_nodup (l : List MenuItem)
    (hnd : (l.map MenuItem.id).Nodup) (j : Nat) (a : MenuItem)
    (hj : l[j]? = some a) :
    jsIndexOf l a = (j : Int) := by
  apply jsFindIndex_eq_first l j a hj (by simp)
  intro m b hm hmb
  simp only [decide_eq_false_iff_not]
  intro hba
  obtain ⟨hjlen, hjeq⟩ := List.getElem?_eq_some.mp hj
  obtain ⟨hmlen, hmeq⟩ := List.getElem?_eq_some.mp hmb
  have hmm : m < (l.map MenuItem.id).length := by simpa using hmlen
  have hjj : j < (l.map MenuItem.id).length := by simpa using hjlen
  have heq : (l.map MenuItem.id)[m] = (l.map MenuItem.id)[j] := by
    rw [List.getElem_map, List.getElem_map, hmeq, hjeq, hba]
  have := (List.Nodup.getElem_inj_iff hnd).mp heq
  omega

/-- C9: unregistering an id that is not registered neither throws (the
reducer is a total function) nor changes the item list or the active index,
assuming the documented invariants (valid active index, pairwise-distinct
ids). -/
theorem C9_unregister_absent_id_no_op (s : StateDefinition) (tid : String)
    (hval : ActiveInRange s) (hnd : (s.items.map MenuItem.id).Nodup)
    (habs : ∀ a ∈ s.items, a.id ≠ tid) :
    (stateReducer s (Action.UnregisterItem tid)).items = s.items ∧
    (stateReducer s (Action.UnregisterItem tid)).activeItemIndex
      = s.activeItemIndex := by
  have hidx : jsFindIndex s.items (fun a => a.id = tid) = -1 :=
    jsFindIndex_eq_neg_one s.items (fun a ha => by simp [habs a ha])
  constructor
  · simp only [stateReducer, hidx]
    simp
  · cases hax : s.activeItemIndex with
    | none => simp [stateReducer, hidx, hax]
    | some i =>
        have hi := hval i hax
        have hlen : i.toNat < s.items.length := by omega
        have hget : jsGet s.items i = some (s.items[i.toNat]) := by
          rw [jsGet_nonneg _ _ hi.1]
          exact List.getElem?_eq_getElem hlen
        have hio : jsIndexOf s.items (s.items[i.toNat]) = (i.toNat : Int) :=
          jsIndexOf_of_nodup s.items hnd i.toNat _
            (List.getElem?_eq_getElem hlen)
        have hne : ¬ ((-1 : Int) = i) := by omega
        simp only [stateReducer, hidx, hax, hget, hio]
        simp [hne]
        omega

/-- C9 witness: unregistering the absent id `"w9z"` from a two-item state
with active index `some 1` changes neither the items nor the active index. -/
theorem C9_witness :
    (stateReducer
      ⟨MenuStates.Open, [⟨"w9a", false, none⟩, ⟨"w9b", false, none⟩], "", none, some 1⟩
      (Action.UnregisterItem "w9z")).items
        = [⟨"w9a", false, none⟩, ⟨"w9b", false, none⟩] ∧
    (stateReducer
      ⟨MenuStates.Open, [⟨"w9a", false, none⟩, ⟨"w9b", false, none⟩], "", none, some 1⟩
      (Action.UnregisterItem "w9z")).activeItemIndex = some 1 :=
  C9_unregister_absent_id_no_op
    ⟨MenuStates.Open, [⟨"w9a", false, none⟩, ⟨"w9b", false, none⟩], "", none, some 1⟩
    "w9z" (by decide) (by decide) (by decide)

/-- C6: under the documented invariants (valid active index,
pairwise-distinct ids), unregistering the id of the active item removes
that record and clears the active index to `none`; unregistering the id of
a registered non-active item removes exactly that record and re-points the
active index at the position now held by the very same active item record. -/
theorem C6_unregister_active_vs_other (s : StateDefinition) (tid : String) (i : Int)
    (hval : ActiveInRange s) (hnd : (s.items.map MenuItem.id).Nodup)
    (hact : s.activeItemIndex = some i) :
    (∀ a : MenuItem, jsGet s.items i = some a → a.id = tid →
      (stateReducer s (Action.UnregisterItem tid)).activeItemIndex = none ∧
      (stateReducer s (Action.UnregisterItem tid)).items
        = s.items.eraseIdx i.toNat) ∧
    (∀ a : MenuItem, jsGet s.items i = some a → a.id ≠ tid →
      (∃ b ∈ s.items, b.id = tid) →
      ∃ (j : Nat) (k : Nat) (c : MenuItem),
        s.items[j]? = some c ∧ c.id = tid ∧
        (stateReducer s (Action.UnregisterItem tid)).items = s.items.eraseIdx j ∧
        (stateReducer s (Action.UnregisterItem tid)).activeItemIndex
          = some (k : Int) ∧
        (stateReducer s (Action.UnregisterItem tid)).items[k]? = some a) := by
  have hi := hval i hact
  constructor
  · intro a hga haid
    have hgeti : s.items[i.toNat]? = some a := by
      rw [← jsGet_nonneg _ _ hi.1]
      exact hga
    have hidx : jsFindIndex s.items (fun b => b.id = tid) = (i.toNat : Int) :=
      jsFindIndex_id_of_nodup s.items hnd i.toNat a tid hgeti haid
    have hii : ((i.toNat : Nat) : Int) = i := by omega
    have hne : ¬ (((i.toNat : Nat) : Int) = -1) := by omega
    constructor
    · simp only [stateReducer, hidx, hact, hii]
      simp
    · simp only [stateReducer, hidx]
      have hsup : i ⊔ 0 = i := Int.max_eq_left hi.1
      simp [hne, hsup, show ¬ (i = -1) from by omega]
  · rintro a hga hneq ⟨b, hbmem, hbid⟩
    have hgeti : s.items[i.toNat]? = some a := by
      rw [← jsGet_nonneg _ _ hi.1]
      exact hga
    obtain ⟨j, c, hjc, hcid, hcmin, hfi⟩ :=
      jsFindIndex_exists_first s.items b hbmem (p := fun d => d.id = tid)
        (by simp [hbid])
    have hcid' : c.id = tid := by simpa using hcid
    have hjlen : j < s.items.length := (List.getElem?_eq_some.mp hjc).1
    have hij : ¬ ((j : Int) = i) := by
      intro hji
      have hjt : j = i.toNat := by omega
      rw [hjt, hgeti] at hjc
      cases hjc
      exact hneq hcid'
    have hanext : a ∈ s.items.eraseIdx j :=
      mem_eraseIdx_of_getElem? s.items i.toNat j (by omega) hgeti
    obtain ⟨k, hk1, _, hk3⟩ := jsIndexOf_exists (s.items.eraseIdx j) a hanext
    have hjne : ¬ (((j : Nat) : Int) = -1) := by omega
    have hitems : (stateReducer s (Action.UnregisterItem tid)).items
        = s.items.eraseIdx j := by
      simp only [stateReducer, hfi]
      simp [hjne]
    refine ⟨j, k, c, hjc, hcid', hitems, ?_, by rw [hitems]; exact hk1⟩
    simp only [stateReducer, hfi, hact, hga]
    simp [hij, hjne]
    rw [hk3]

/-- C6 witness: on items `[w6a, w6b]` with `w6b` active, unregistering
`"w6b"` clears the active index and removes position 1; unregistering
`"w6a"` keeps the same active record `w6b`, now at position 0. -/
theorem C6_witness :
    ((stateReducer
        ⟨MenuStates.Open, [⟨"w6a", false, none⟩, ⟨"w6b", false, none⟩], "", none, some 1⟩
        (Action.UnregisterItem "w6b")).activeItemIndex = none ∧
      (stateReducer
        ⟨MenuStates.Open, [⟨"w6a", false, none⟩, ⟨"w6b", false, none⟩], "", none, some 1⟩
        (Action.UnregisterItem "w6b")).items
          = ([⟨"w6a", false, none⟩, ⟨"w6b", false, none⟩] :
              List MenuItem).eraseIdx (1 : Int).toNat) ∧
    (∃ (j : Nat) (k : Nat) (c : MenuItem),
      ([⟨"w6a", false, none⟩, ⟨"w6b", false, none⟩] : List MenuItem)[j]? = some c ∧
      c.id = "w6a" ∧
      (stateReducer
        ⟨MenuStates.Open, [⟨"w6a", false, none⟩, ⟨"w6b", false, none⟩], "", none, some 1⟩
        (Action.UnregisterItem "w6a")).items
          = ([⟨"w6a", false, none⟩, ⟨"w6b", false, none⟩] : List MenuItem).eraseIdx j ∧
      (stateReducer
        ⟨MenuStates.Open, [⟨"w6a", false, none⟩, ⟨"w6b", false, none⟩], "", none, some 1⟩
        (Action.UnregisterItem "w6a")).activeItemIndex = some (k : Int) ∧
      (stateReducer
        ⟨MenuStates.Open, [⟨"w6a", false, none⟩, ⟨"w6b", false, none⟩], "", none, some 1⟩
        (Action.UnregisterItem "w6a")).items[k]? = some ⟨"w6b", false, none⟩) := by
  have hA := C6_unregister_active_vs_other
    ⟨MenuStates.Open, [⟨"w6a", false, none⟩, ⟨"w6b", false, none⟩], "", none, some 1⟩
    "w6b" 1 (by decide) (by decide) rfl
  have hB := C6_unregister_active_vs_other
    ⟨MenuStates.Open, [⟨"w6a", false, none⟩, ⟨"w6b", false, none⟩], "", none, some 1⟩
    "w6a" 1 (by decide) (by decide) rfl
  exact ⟨hA.1 ⟨"w6b", false, none⟩ rfl rfl,
         hB.2 ⟨"w6b", false, none⟩ rfl (by decide)
           ⟨⟨"w6a", false, none⟩, by decide, rfl⟩⟩

/-- The item list produced by `UnregisterItem`. -/
theorem unregister_items_eq (s : StateDefinition) (tid : String) :
    (stateReducer s (Action.UnregisterItem tid)).items =
      if jsFindIndex s.items (fun a => a.id = tid) = -1 then s.items
      else s.items.eraseIdx (jsFindIndex s.items (fun a => a.id = tid)).toNat := rfl

/-- `UnregisterItem` on a state with no active item leaves the active index
`none`. -/
theorem unregister_active_none (s : StateDefinition) (tid : String)
    (hax : s.activeItemIndex = none) :
    (stateReducer s (Action.UnregisterItem tid)).activeItemIndex = none := by
  simp only [stateReducer, hax]

/-- The active index produced by `UnregisterItem` on a state whose active
index is `some i`. -/
theorem unregister_active_some (s : StateDefinition) (tid : String) (i : Int)
    (hax : s.activeItemIndex = some i) :
    (stateReducer s (Action.UnregisterItem tid)).activeItemIndex =
      if jsFindIndex s.items (fun a => a.id = tid) = i then none
      else
        match jsGet s.items i with
        | none => some (-1)
        | some a => some (jsIndexOf
            (if jsFindIndex s.items (fun a => a.id = tid) = -1 then s.items
             else s.items.eraseIdx
               (jsFindIndex s.items (fun a => a.id = tid)).toNat) a) := by
  simp only [stateReducer, hax]

/-- On a state with a valid active index the resolver only produces valid
indices (the `ensureValidValue` fallback reuses the valid current index, and
every successful `findIndex` position is in range). -/
theorem calc_inRange (s : StateDefinition) (f : Focus) (oid : Option String)
    (hval : ActiveInRange s) (k : Int)
    (hk : calculateActiveItemIndex s f oid = some k) :
    0 ≤ k ∧ k < (s.items.length : Int) := by
  cases f with
  | FirstItem =>
      rw [calc_first_eq] at hk
      by_cases hemp : s.items.length ≤ 0
      · rw [if_pos hemp] at hk; cases hk
      · rw [if_neg hemp] at hk
        by_cases hfi : jsFindIndex s.items (fun item => !item.disabled) = -1
        · rw [if_pos hfi] at hk
          exact hval k hk
        · rw [if_neg hfi] at hk
          rcases jsFindIndex_range (p := fun item => !item.disabled) s.items
            with h | ⟨j, hj, he⟩
          · exact absurd h hfi
          · rw [he] at hk
            cases hk
            omega
  | NextItem =>
      rw [calc_next_eq] at hk
      by_cases hemp : s.items.length ≤ 0
      · rw [if_pos hemp] at hk; cases hk
      · rw [if_neg hemp] at hk
        by_cases hfi : jsFindIndexI s.items (fun item idx =>
            if (idx : Int) ≤ s.activeItemIndex.getD (-1) then false
            else !item.disabled) = -1
        · rw [if_pos hfi] at hk
          exact hval k hk
        · rw [if_neg hfi] at hk
          rcases jsFindIndexI_range (p := fun item idx =>
              if (idx : Int) ≤ s.activeItemIndex.getD (-1) then false
              else !item.disabled) s.items with h | ⟨j, hj, he⟩
          · exact absurd h hfi
          · rw [he] at hk
            cases hk
            omega
  | PreviousItem =>
      rw [calc_previous_eq] at hk
      by_cases hemp : s.items.length ≤ 0
      · rw [if_pos hemp] at hk; cases hk
      · rw [if_neg hemp] at hk
        by_cases hfi : jsFindIndexI s.items.reverse (fun item ridx =>
            if (s.items.length : Int) - ridx - 1 ≥ s.activeItemIndex.getD (-1)
            then false else !item.disabled) = -1
        · rw [if_pos hfi] at hk
          exact hval k hk
        · rw [if_neg hfi] at hk
          rcases jsFindIndexI_range (p := fun item ridx =>
              if (s.items.length : Int) - ridx - 1 ≥ s.activeItemIndex.getD (-1)
              then false else !item.disabled) s.items.reverse with h | ⟨j, hj, he⟩
          · exact absurd h hfi
          · rw [he] at hk
            cases hk
            simp only [List.length_reverse] at hj
            constructor <;> omega
  | LastItem =>
      rw [calc_last_eq] at hk
      by_cases hemp : s.items.length ≤ 0
      · rw [if_pos hemp] at hk; cases hk
      · rw [if_neg hemp] at hk
        by_cases hfi : jsFindIndex s.items.reverse (fun item => !item.disabled) = -1
        · rw [if_pos hfi] at hk
          exact hval k hk
        · rw [if_neg hfi] at hk
          rcases jsFindIndex_range (p := fun item => !item.disabled) s.items.reverse
            with h | ⟨j, hj, he⟩
          · exact absurd h hfi
          · rw [he] at hk
            cases hk
            simp only [List.length_reverse] at hj
            constructor <;> omega
  | SpecificItem =>
      rw [calc_specific_eq] at hk
      by_cases hemp : s.items.length ≤ 0
      · rw [if_pos hemp] at hk; cases hk
      · rw [if_neg hemp] at hk
        by_cases hfi : jsFindIndex s.items (fun item => some item.id = oid) = -1
        · rw [if_pos hfi] at hk
          exact hval k hk
        · rw [if_neg hfi] at hk
          rcases jsFindIndex_range (p := fun item => some item.id = oid) s.items
            with h | ⟨j, hj, he⟩
          · exact absurd h hfi
          · rw [he] at hk
            cases hk
            omega
  | Nothing =>
      rw [calc_nothing_eq] at hk
      cases hk

/-- The `GoToItem` reducer leaves the items unchanged and sets the active
index to the resolver result (also in the no-op branch, where the resolver
result equals the current active index). -/
theorem goToItem_fields (s : StateDefinition) (f : Focus) (oid : Option String) :
    (stateReducer s (Action.GoToItem f oid)).items = s.items ∧
    (stateReducer s (Action.GoToItem f oid)).activeItemIndex
      = calculateActiveItemIndex s f oid := by
  simp only [stateReducer]
  split
  · next hcond => exact ⟨rfl, hcond.2.2⟩
  · exact ⟨rfl, rfl⟩

/-- One dispatch preserves validity of the active index. -/
theorem activeInRange_step (s : StateDefinition) (a : Action)
    (hval : ActiveInRange s) : ActiveInRange (stateReducer s a) := by
  cases a with
  | ToggleMenu => exact fun i hi => hval i hi
  | OpenMenu => exact fun i hi => hval i hi
  | CloseMenu => exact fun i hi => hval i hi
  | ClearSearch => exact fun i hi => hval i hi
  | SetButtonRef => exact fun i hi => hval i hi
  | SetItemsRef => exact fun i hi => hval i hi
  | GoToItem f oid =>
      intro i hi
      rw [(goToItem_fields s f oid).2] at hi
      rw [(goToItem_fields s f oid).1]
      exact calc_inRange s f oid hval i hi
  | Search v =>
      intro i hi
      rw [(search_fields s v).1]
      simp only [stateReducer] at hi
      split at hi
      · exact hval i hi
      · next hcond =>
          cases hi
          push_neg at hcond
          rcases jsFindIndex_range
              (p := searchMatches (s.searchQuery ++ v)) s.items with h | ⟨j, hj, he⟩
          · exact absurd h hcond.1
          · rw [he]
            constructor <;> omega
  | RegisterItem nid ndis ntv =>
      intro i hi
      have hb := hval i hi
      simp only [stateReducer, List.length_append, List.length_singleton]
      omega
  | UnregisterItem tid =>
      intro k hk
      have hitems := unregister_items_eq s tid
      cases hax : s.activeItemIndex with
      | none =>
          rw [unregister_active_none s tid hax] at hk
          cases hk
      | some i =>
          have hi := hval i hax
          have hlen : i.toNat < s.items.length := by omega
          have hget : jsGet s.items i = some (s.items[i.toNat]) := by
            rw [jsGet_nonneg _ _ hi.1]
            exact List.getElem?_eq_getElem hlen
          rw [unregister_active_some s tid i hax] at hk
          by_cases hidxi : jsFindIndex s.items (fun a => a.id = tid) = i
          · rw [if_pos hidxi] at hk
            cases hk
          · rw [if_neg hidxi] at hk
            simp only [hget] at hk
            rcases jsFindIndex_range (p := fun a => decide (a.id = tid)) s.items
              with hneg | ⟨j, hj, he⟩
            · rw [hneg, if_pos rfl] at hk hitems
              rw [hitems]
              have hmem : s.items[i.toNat] ∈ s.items :=
                List.getElem?_mem (List.getElem?_eq_getElem hlen)
              obtain ⟨j', hj'1, _, hj'3⟩ := jsIndexOf_exists s.items _ hmem
              rw [hj'3] at hk
              cases hk
              have hj'len : j' < s.items.length := (List.getElem?_eq_some.mp hj'1).1
              omega
            · have hne : ¬ (((j : Nat) : Int) = -1) := by omega
              have htn : ((j : Nat) : Int).toNat = j := rfl
              rw [he, if_neg hne, htn] at hk hitems
              rw [hitems]
              have hji : i.toNat ≠ j := by omega
              have hmem : s.items[i.toNat] ∈ s.items.eraseIdx j :=
                mem_eraseIdx_of_getElem? s.items i.toNat j hji
                  (List.getElem?_eq_getElem hlen)
              obtain ⟨j', hj'1, _, hj'3⟩ := jsIndexOf_exists (s.items.eraseIdx j) _ hmem
              rw [hj'3] at hk
              cases hk
              have hj'len : j' < (s.items.eraseIdx j).length :=
                (List.getElem?_eq_some.mp hj'1).1
              omega

/-- C7: starting from `defaultState` every sequence of dispatched actions
keeps `activeItemIndex` either `none` or a valid index into the current
item list — in particular it never stays stale after an unregistration. -/
theorem C7_reachable_active_index_valid (s : StateDefinition)
    (hreach : Reachable s) : ActiveInRange s := by
  induction hreach with
  | refl => intro i hi; cases hi
  | step a _ ih => exact activeInRange_step _ a ih

/-- C7 witness: the invariant holds at the concrete reachable state obtained
by registering an item and navigating to the first enabled item. -/
theorem C7_witness :
    ActiveInRange (stateReducer
      (stateReducer defaultState (Action.RegisterItem "w7" false none))
      (Action.GoToItem Focus.FirstItem none)) :=
  C7_reachable_active_index_valid _
    (Reachable.step _ (Reachable.step _ Reachable.refl))

end TailwindMenu
